import Mathlib

/-!
Verification of the git synchronization layer of the `ledger` repository
(`src/lib/conveyor/handlers/plugin-handler.ts`).

The embedding models each git command issued by the orchestrator as a field of
an environment record giving that command's outcome (`ok` payload or thrown
error message), and translates the TypeScript control flow into pure Lean
functions that also return the ordered trace of commands issued.  The diff
parser of `getBranchDiff` is translated at the character level, including the
JavaScript regular-expression semantics it relies on (leftmost match, greedy
captures, multiline split).
-/

/-- Outcome of one git command: a successful payload or a thrown error whose
`message` string is recorded. -/
inductive GitOutcome (α : Type) where
  | ok : α → GitOutcome α
  | err : String → GitOutcome α
deriving DecidableEq

/-- The fields of the `simple-git` status result read by `pullCurrentBranch`. -/
structure GitStatus where
  behind : Nat
  modified : List String
  not_added : List String
  created : List String
  deleted : List String
  staged : List String
deriving DecidableEq

/-- Outcomes of the git commands that one invocation of `pullCurrentBranch`
may issue. -/
structure GitEnv where
  branchLocalCurrent : GitOutcome String
  fetchResult : GitOutcome Unit
  statusResult : GitOutcome GitStatus
  stashPushResult : GitOutcome Unit
  pullResult : GitOutcome Unit
  stashPopResult : GitOutcome Unit
  rebaseAbortResult : GitOutcome Unit
deriving DecidableEq

/-- A git command as issued by the handler, in source order of its arguments. -/
inductive GitCmd where
  | branchLocal : GitCmd
  | fetch (remote branch : String) : GitCmd
  | status : GitCmd
  | raw (args : List String) : GitCmd
  | pull (remote branch : String) (options : List String) : GitCmd
  | rebase (options : List String) : GitCmd
deriving DecidableEq

/-- Result record of `pullCurrentBranch`; `none` models an absent optional
field of the TypeScript object literal. -/
structure PullResult where
  success : Bool
  message : String
  hadConflicts : Option Bool := none
  autoStashed : Option Bool := none
deriving DecidableEq

/-- Substring test on character lists, used to model
`String.prototype.includes`. -/
def listIsPrefixOf : List Char → List Char → Bool
  | [], _ => true
  | _ :: _, [] => false
  | a :: as, b :: bs => a == b && listIsPrefixOf as bs

/-- `listContainsSub pat cs` is true iff `pat` occurs as a contiguous
substring of `cs`. -/
def listContainsSub (pat : List Char) : List Char → Bool
  | [] => listIsPrefixOf pat []
  | c :: cs => listIsPrefixOf pat (c :: cs) || listContainsSub pat cs

/-- `s.includes(pat)` of JavaScript. -/
def containsSub (s pat : String) : Bool :=
  listContainsSub pat.data s.data

/-- The conflict classification of the catch block of `pullCurrentBranch`. -/
def isConflictError (msg : String) : Bool :=
  containsSub msg "conflict" || containsSub msg "CONFLICT" ||
  containsSub msg "Merge conflict" || containsSub msg "could not apply"

/-- The missing-tracking-branch classification of the catch block of
`pullCurrentBranch`. -/
def isNoTrackingError (msg : String) : Bool :=
  containsSub msg "no tracking" || containsSub msg "doesn\x27t track"

/-- Arguments of the safety-net stash command issued before pulling. -/
def stashPushArgs : List String :=
  ["stash", "push", "--include-untracked", "-m", "ledger-auto-stash-for-pull"]

/-- The uncommitted-changes test of `pullCurrentBranch`. -/
def hasUncommittedChanges (statusBefore : GitStatus) : Bool :=
  statusBefore.modified.length > 0 ||
  statusBefore.not_added.length > 0 ||
  statusBefore.created.length > 0 ||
  statusBefore.deleted.length > 0 ||
  statusBefore.staged.length > 0

/-- Message built for a successful pull that restored the stash. -/
def pulledRestoredMsg (behind : Nat) : String :=
  "Pulled " ++ toString behind ++ " commit" ++ (if behind > 1 then "s" else "")
    ++ " and restored your uncommitted changes"

/-- Message built for a successful pull with no stash involved. -/
def pulledMsg (behind : Nat) : String :=
  "Pulled " ++ toString behind ++ " commit" ++ (if behind > 1 then "s" else "")
    ++ " from origin"

/-- Message of the stash-pop-conflict branch. -/
def popConflictMsg : String :=
  "Pulled successfully, but restoring your changes caused conflicts. Please resolve them."

/-- Message of the stash-left-behind branch. -/
def popOtherFailureMsg : String :=
  "Pulled successfully. Your changes are in the stash (run git stash pop to restore)."

/-- Message of the pull-conflict failure branch. -/
def pullConflictMsg : String :=
  "Pull failed due to conflicts with incoming changes. Please resolve manually."

/-- Message of the benign missing-tracking-branch branch. -/
def noTrackingMsg : String :=
  "No remote tracking branch (will be created on push)"

/-- The catch block of `pullCurrentBranch`: best-effort stash restore when a
safety-net stash was taken, conflict classification with rebase abort, and the
benign missing-tracking-branch case. -/
def pullCatchBlock (didStash : Bool) (errorMessage : String)
    (trace : List GitCmd) : PullResult × List GitCmd :=
  let trace1 := if didStash then trace ++ [GitCmd.raw ["stash", "pop"]] else trace
  if isConflictError errorMessage then
    (⟨false, pullConflictMsg, some true, none⟩, trace1 ++ [GitCmd.rebase ["--abort"]])
  else if isNoTrackingError errorMessage then
    (⟨true, noTrackingMsg, none, none⟩, trace1)
  else
    (⟨false, errorMessage, none, none⟩, trace1)

/-- Translation of `pullCurrentBranch` (plugin-handler.ts lines 1259-1371):
the body after the initial repository check.  Returns the result object and
the ordered trace of git commands issued. -/
def pullCurrentBranch (env : GitEnv) : PullResult × List GitCmd :=
  let t0 := [GitCmd.branchLocal]
  match env.branchLocalCurrent with
  | .err e => pullCatchBlock false e t0
  | .ok currentBranch =>
    if currentBranch = "" then
      (⟨false, "Not on a branch (detached HEAD state)", none, none⟩, t0)
    else
      let t1 := t0 ++ [GitCmd.fetch "origin" currentBranch]
      match env.fetchResult with
      | .err e => pullCatchBlock false e t1
      | .ok _ =>
        let t2 := t1 ++ [GitCmd.status]
        match env.statusResult with
        | .err e => pullCatchBlock false e t2
        | .ok statusBefore =>
          if statusBefore.behind = 0 then
            (⟨true, "Already up to date", none, none⟩, t2)
          else
            if hasUncommittedChanges statusBefore then
              let t3 := t2 ++ [GitCmd.raw stashPushArgs]
              match env.stashPushResult with
              | .err e => pullCatchBlock false e t3
              | .ok _ =>
                let t4 := t3 ++ [GitCmd.pull "origin" currentBranch ["--rebase"]]
                match env.pullResult with
                | .err e => pullCatchBlock true e t4
                | .ok _ =>
                  let t5 := t4 ++ [GitCmd.raw ["stash", "pop"]]
                  match env.stashPopResult with
                  | .ok _ =>
                    (⟨true, pulledRestoredMsg statusBefore.behind, none, some true⟩, t5)
                  | .err stashMsg =>
                    if containsSub stashMsg "conflict" || containsSub stashMsg "CONFLICT" then
                      (⟨true, popConflictMsg, some true, some true⟩, t5)
                    else
                      (⟨true, popOtherFailureMsg, none, some true⟩, t5)
            else
              let t4 := t2 ++ [GitCmd.pull "origin" currentBranch ["--rebase"]]
              match env.pullResult with
              | .err e => pullCatchBlock false e t4
              | .ok _ =>
                (⟨true, pulledMsg statusBefore.behind, none, none⟩, t4)

/-- Entry point of `pullCurrentBranch` including the initial
`if (!git) throw` guard on the nullable module-level session. -/
def pullCurrentBranchTop (g : Option GitEnv) :
    Except String (PullResult × List GitCmd) :=
  match g with
  | none => Except.error "No repository selected"
  | some env => Except.ok (pullCurrentBranch env)

/-- A repository context handle as returned by the repository manager. -/
structure RepositoryContext where
  path : String
deriving DecidableEq

/-- Translation of `requireContext` (plugin-handler.ts lines 244-253): it
consults only the repository manager's active context; the legacy module-level
session and path are in scope in the source file but deliberately unread. -/
def requireContext (activeContext : Option RepositoryContext)
    (legacyGit : Option GitEnv) (legacyRepoPath : Option String) :
    Except String RepositoryContext :=
  match activeContext with
  | some ctx => Except.ok ctx
  | none =>
      Except.error "No repository selected. Use RepositoryManager.open() to select a repository."

/-- Whether an `Except` models a thrown exception. -/
def isThrown {α β : Type} : Except α β → Bool
  | .error _ => true
  | .ok _ => false

/-- The full command trace of an invocation that stashed, pulled, and then
attempted `stash pop`. -/
def pullFullTrace (b : String) : List GitCmd :=
  [GitCmd.branchLocal, GitCmd.fetch "origin" b, GitCmd.status,
   GitCmd.raw stashPushArgs, GitCmd.pull "origin" b ["--rebase"],
   GitCmd.raw ["stash", "pop"]]

/-- The command trace up to and including the pull command. -/
def pullPreTrace (b : String) (didStash : Bool) : List GitCmd :=
  [GitCmd.branchLocal, GitCmd.fetch "origin" b, GitCmd.status] ++
  (if didStash then [GitCmd.raw stashPushArgs] else []) ++
  [GitCmd.pull "origin" b ["--rebase"]]

/-- C4: when, after fetching, the current branch is 0 commits behind, the
function returns success with `autoStashed` absent, and the trace consists of
exactly the three read-only commands: no stash is created, no pull runs, and
nothing mutates the working tree. -/
theorem pull_already_up_to_date (env : GitEnv) (b : String) (s : GitStatus)
    (hb : env.branchLocalCurrent = GitOutcome.ok b) (hbne : b ≠ "")
    (hf : env.fetchResult = GitOutcome.ok ())
    (hs : env.statusResult = GitOutcome.ok s) (hbehind : s.behind = 0) :
    (pullCurrentBranch env).1.success = true ∧
    (pullCurrentBranch env).1.message = "Already up to date" ∧
    (pullCurrentBranch env).1.autoStashed = none ∧
    (pullCurrentBranch env).2 = [GitCmd.branchLocal, GitCmd.fetch "origin" b, GitCmd.status] := by
  simp [pullCurrentBranch, hb, hbne, hf, hs, hbehind]

/-- C4 witness: the theorem applied to a concrete up-to-date environment. -/
theorem pull_already_up_to_date_check :
    (pullCurrentBranch
        ⟨GitOutcome.ok "main", GitOutcome.ok (),
         GitOutcome.ok ⟨0, [], [], [], [], []⟩, GitOutcome.ok (),
         GitOutcome.ok (), GitOutcome.ok (), GitOutcome.ok ()⟩).1.success = true :=
  (pull_already_up_to_date _ "main" ⟨0, [], [], [], [], []⟩
    rfl (by decide) rfl rfl rfl).1

/-- C5: the workflow entry points throw exactly for the no-repository-selected
precondition.  `pullCurrentBranchTop` throws iff the session is absent (every
git-level failure recorded in the environment yields a data result), and
`requireContext` throws iff no active context exists, its result never
depending on the legacy session arguments. -/
theorem entry_points_throw_iff_no_repository :
    (∀ g : Option GitEnv, isThrown (pullCurrentBranchTop g) = true ↔ g = none) ∧
    (∀ (a : Option RepositoryContext) (lg : Option GitEnv) (lp : Option String),
        isThrown (requireContext a lg lp) = true ↔ a = none) ∧
    (∀ (a : Option RepositoryContext) (lg lg2 : Option GitEnv) (lp lp2 : Option String),
        requireContext a lg lp = requireContext a lg2 lp2) ∧
    (∀ (ctx : RepositoryContext) (lg : Option GitEnv) (lp : Option String),
        requireContext (some ctx) lg lp = Except.ok ctx) := by
  refine ⟨?_, ?_, ?_, ?_⟩
  · intro g; cases g <;> simp [pullCurrentBranchTop, isThrown]
  · intro a lg lp; cases a <;> simp [requireContext, isThrown]
  · intro a lg lg2 lp lp2; cases a <;> rfl
  · intro ctx lg lp; rfl

/-- C5 witness: concrete instances of both directions. -/
theorem entry_points_throw_iff_no_repository_check :
    isThrown (pullCurrentBranchTop none) = true ∧
    requireContext (some ⟨"/repo"⟩) none none = Except.ok ⟨"/repo"⟩ :=
  ⟨(entry_points_throw_iff_no_repository.1 none).mpr rfl,
   entry_points_throw_iff_no_repository.2.2.2 ⟨"/repo"⟩ none none⟩

/-- C1: when a safety-net stash was created, the pull succeeded, and
`stash pop` fails: a conflict-shaped pop error yields success with
`hadConflicts` and `autoStashed` set and the manual-resolution message; any
other pop error yields success with `autoStashed` set and the
recover-from-stash message; in both cases the trace ends at the single pop
attempt, so the stash is neither reapplied nor dropped, and no exception
propagates. -/
theorem pull_stash_pop_failure_handling (env : GitEnv) (b : String)
    (s : GitStatus) (m : String)
    (hb : env.branchLocalCurrent = GitOutcome.ok b) (hbne : b ≠ "")
    (hf : env.fetchResult = GitOutcome.ok ())
    (hs : env.statusResult = GitOutcome.ok s) (hbehind : s.behind ≠ 0)
    (hunc : hasUncommittedChanges s = true)
    (hpush : env.stashPushResult = GitOutcome.ok ())
    (hpull : env.pullResult = GitOutcome.ok ())
    (hpop : env.stashPopResult = GitOutcome.err m) :
    ((containsSub m "conflict" || containsSub m "CONFLICT") = true →
        pullCurrentBranch env =
          (⟨true, popConflictMsg, some true, some true⟩, pullFullTrace b)) ∧
    ((containsSub m "conflict" || containsSub m "CONFLICT") = false →
        pullCurrentBranch env =
          (⟨true, popOtherFailureMsg, none, some true⟩, pullFullTrace b)) ∧
    pullCurrentBranchTop (some env) = Except.ok (pullCurrentBranch env) := by
  refine ⟨fun hc => ?_, fun hc => ?_, rfl⟩ <;>
    simp [pullCurrentBranch, hb, hbne, hf, hs, hbehind, hunc, hpush, hpull,
      hpop, hc, pullFullTrace]

/-- C1 witness: both pop-failure shapes at concrete environments. -/
theorem pull_stash_pop_failure_handling_check :
    (pullCurrentBranch
        ⟨GitOutcome.ok "dev", GitOutcome.ok (),
         GitOutcome.ok ⟨2, ["m.txt"], [], [], [], []⟩, GitOutcome.ok (),
         GitOutcome.ok (), GitOutcome.err "CONFLICT (content): merge conflict",
         GitOutcome.ok ()⟩).1 =
      ⟨true, popConflictMsg, some true, some true⟩ ∧
    (pullCurrentBranch
        ⟨GitOutcome.ok "dev", GitOutcome.ok (),
         GitOutcome.ok ⟨2, ["m.txt"], [], [], [], []⟩, GitOutcome.ok (),
         GitOutcome.ok (), GitOutcome.err "could not restore untracked files from stash",
         GitOutcome.ok ()⟩).1 =
      ⟨true, popOtherFailureMsg, none, some true⟩ := by
  constructor
  · exact congrArg Prod.fst
      ((pull_stash_pop_failure_handling _ "dev" ⟨2, ["m.txt"], [], [], [], []⟩
          "CONFLICT (content): merge conflict" rfl (by decide) rfl rfl
          (by decide) (by decide) rfl rfl rfl).1 (by decide))
  · exact congrArg Prod.fst
      ((pull_stash_pop_failure_handling _ "dev" ⟨2, ["m.txt"], [], [], [], []⟩
          "could not restore untracked files from stash" rfl (by decide) rfl rfl
          (by decide) (by decide) rfl rfl rfl).2.1 (by decide))

/-- C2: when the pull step itself fails: a conflict-shaped error aborts any
in-progress rebase before reporting `success = false` with
`hadConflicts = true`; an error merely indicating a missing upstream tracking
branch (and not conflict-shaped — the conflict test runs first) is reported as
a benign success; and whenever a safety-net stash was created, a `stash pop`
restore is attempted, whose own outcome (`env.stashPopResult` is
unconstrained here) never changes the result — the failure is swallowed and
the stash stays in the stash list. -/
theorem pull_failure_handling (env : GitEnv) (b : String) (s : GitStatus)
    (e : String)
    (hb : env.branchLocalCurrent = GitOutcome.ok b) (hbne : b ≠ "")
    (hf : env.fetchResult = GitOutcome.ok ())
    (hs : env.statusResult = GitOutcome.ok s) (hbehind : s.behind ≠ 0)
    (hpush : hasUncommittedChanges s = true → env.stashPushResult = GitOutcome.ok ())
    (hpull : env.pullResult = GitOutcome.err e) :
    (isConflictError e = true →
        pullCurrentBranch env =
          (⟨false, pullConflictMsg, some true, none⟩,
           pullPreTrace b (hasUncommittedChanges s) ++
             (if hasUncommittedChanges s then [GitCmd.raw ["stash", "pop"]] else []) ++
             [GitCmd.rebase ["--abort"]])) ∧
    (isConflictError e = false → isNoTrackingError e = true →
        pullCurrentBranch env =
          (⟨true, noTrackingMsg, none, none⟩,
           pullPreTrace b (hasUncommittedChanges s) ++
             (if hasUncommittedChanges s then [GitCmd.raw ["stash", "pop"]] else []))) ∧
    (hasUncommittedChanges s = true →
        GitCmd.raw ["stash", "pop"] ∈ (pullCurrentBranch env).2) := by
  cases hunc : hasUncommittedChanges s with
  | true =>
      refine ⟨fun hc => ?_, fun hc hnt => ?_, fun _ => ?_⟩
      · simp [pullCurrentBranch, pullCatchBlock, hb, hbne, hf, hs, hbehind,
          hunc, hpush hunc, hpull, hc, pullPreTrace]
      · simp [pullCurrentBranch, pullCatchBlock, hb, hbne, hf, hs, hbehind,
          hunc, hpush hunc, hpull, hc, hnt, pullPreTrace]
      · simp only [pullCurrentBranch, pullCatchBlock, hb, hf, hs,
          hpush hunc, hpull]
        simp [hbne, hbehind, hunc]
        split
        · simp
        · split <;> simp
  | false =>
      refine ⟨fun hc => ?_, fun hc hnt => ?_, fun h => absurd h (by decide)⟩
      · simp [pullCurrentBranch, pullCatchBlock, hb, hbne, hf, hs, hbehind,
          hunc, hpull, hc, pullPreTrace]
      · simp [pullCurrentBranch, pullCatchBlock, hb, hbne, hf, hs, hbehind,
          hunc, hpull, hc, hnt, pullPreTrace]

/-- C2 witness: a conflict-shaped pull failure with a stash taken, and a
missing-tracking-branch failure with a clean tree. -/
theorem pull_failure_handling_check :
    (pullCurrentBranch
        ⟨GitOutcome.ok "dev", GitOutcome.ok (),
         GitOutcome.ok ⟨1, ["m.txt"], [], [], [], []⟩, GitOutcome.ok (),
         GitOutcome.err "CONFLICT (content): Merge conflict in m.txt",
         GitOutcome.err "stash pop refused", GitOutcome.ok ()⟩).1 =
      ⟨false, pullConflictMsg, some true, none⟩ ∧
    (pullCurrentBranch
        ⟨GitOutcome.ok "fresh", GitOutcome.ok (),
         GitOutcome.ok ⟨1, [], [], [], [], []⟩, GitOutcome.ok (),
         GitOutcome.err "There is no tracking information for the current branch",
         GitOutcome.ok (), GitOutcome.ok ()⟩).1 =
      ⟨true, noTrackingMsg, none, none⟩ := by
  constructor
  · exact congrArg Prod.fst
      ((pull_failure_handling _ "dev" ⟨1, ["m.txt"], [], [], [], []⟩
          "CONFLICT (content): Merge conflict in m.txt" rfl (by decide) rfl rfl
          (by decide) (fun _ => rfl) rfl).1 (by decide))
  · exact congrArg Prod.fst
      ((pull_failure_handling _ "fresh" ⟨1, [], [], [], [], []⟩
          "There is no tracking information for the current branch" rfl
          (by decide) rfl rfl (by decide)
          (fun h => by simp [hasUncommittedChanges] at h) rfl).2.1
        (by decide) (by decide))

/-- Status of the C3 counterexample: 1 commit behind, one modified file. -/
def statusC3 : GitStatus := ⟨1, ["a.txt"], [], [], [], []⟩

/-- Environment of the C3 counterexample: a stash is taken, then the pull
fails with a missing-tracking-branch message, which the catch block reports
as a success without `autoStashed`. -/
def envC3 : GitEnv :=
  ⟨GitOutcome.ok "feature", GitOutcome.ok (), GitOutcome.ok statusC3,
   GitOutcome.ok (),
   GitOutcome.err "There is no tracking information for the current branch",
   GitOutcome.ok (), GitOutcome.ok ()⟩

/-- C3 counterexample: an invocation that is behind with uncommitted changes
and creates the safety-net stash, yet ends in a successful result whose
`autoStashed` field is absent — refuting "every successful result of that
invocation reports autoStashed = true". -/
theorem pull_autostash_counterexample :
    hasUncommittedChanges statusC3 = true ∧ statusC3.behind ≠ 0 ∧
    GitCmd.raw stashPushArgs ∈ (pullCurrentBranch envC3).2 ∧
    (pullCurrentBranch envC3).1.success = true ∧
    (pullCurrentBranch envC3).1.autoStashed = none := by decide

/-- C3 amended: under the claim's preconditions (behind, uncommitted changes,
stash push succeeds) the trace opens with the safety-net stash command —
labeled `ledger-auto-stash-for-pull` and including untracked files — issued
before the pull command; and every successful result except the benign
missing-tracking-branch success reports `autoStashed = true`. -/
theorem pull_autostash_amended (env : GitEnv) (b : String) (s : GitStatus)
    (hb : env.branchLocalCurrent = GitOutcome.ok b) (hbne : b ≠ "")
    (hf : env.fetchResult = GitOutcome.ok ())
    (hs : env.statusResult = GitOutcome.ok s) (hbehind : s.behind ≠ 0)
    (hunc : hasUncommittedChanges s = true)
    (hpush : env.stashPushResult = GitOutcome.ok ()) :
    (∃ rest, (pullCurrentBranch env).2 =
        [GitCmd.branchLocal, GitCmd.fetch "origin" b, GitCmd.status,
         GitCmd.raw stashPushArgs, GitCmd.pull "origin" b ["--rebase"]] ++ rest) ∧
    ((pullCurrentBranch env).1.success = true →
        (pullCurrentBranch env).1.autoStashed = some true ∨
        (pullCurrentBranch env).1.message = noTrackingMsg) := by
  cases hpull : env.pullResult with
  | ok u =>
      cases u
      cases hpop : env.stashPopResult with
      | ok u2 =>
          cases u2
          refine ⟨⟨[GitCmd.raw ["stash", "pop"]], ?_⟩, fun _ => Or.inl ?_⟩ <;>
            simp [pullCurrentBranch, hb, hbne, hf, hs, hbehind, hunc, hpush,
              hpull, hpop]
      | err m =>
          constructor
          · refine ⟨[GitCmd.raw ["stash", "pop"]], ?_⟩
            simp [pullCurrentBranch, hb, hbne, hf, hs, hbehind, hunc, hpush,
              hpull, hpop]
            split <;> simp
          · intro _
            left
            simp [pullCurrentBranch, hb, hbne, hf, hs, hbehind, hunc, hpush,
              hpull, hpop]
            split <;> simp
  | err e =>
      constructor
      · simp [pullCurrentBranch, pullCatchBlock, hb, hbne, hf, hs,
          hbehind, hunc, hpush, hpull]
        split
        · exact ⟨[GitCmd.raw ["stash", "pop"], GitCmd.rebase ["--abort"]], by simp⟩
        · split
          · exact ⟨[GitCmd.raw ["stash", "pop"]], by simp⟩
          · exact ⟨[GitCmd.raw ["stash", "pop"]], by simp⟩
      · intro hsuc
        by_cases hce : isConflictError e = true
        · exfalso
          simp [pullCurrentBranch, pullCatchBlock, hb, hbne, hf, hs, hbehind,
            hunc, hpush, hpull, hce] at hsuc
        · by_cases hnt : isNoTrackingError e = true
          · right
            simp [pullCurrentBranch, pullCatchBlock, hb, hbne, hf, hs,
              hbehind, hunc, hpush, hpull, hce, hnt]
          · exfalso
            simp [pullCurrentBranch, pullCatchBlock, hb, hbne, hf, hs,
              hbehind, hunc, hpush, hpull, hce, hnt] at hsuc

/-- A diff line as pushed by the hunk walker of `getBranchDiff`; `type` is one
of "add", "delete", "context". -/
structure DiffLine where
  type : String
  content : String
  oldLineNumber : Option Nat := none
  newLineNumber : Option Nat := none
deriving DecidableEq

/-- A hunk as pushed by `getBranchDiff`. -/
structure DiffHunk where
  oldStart : Nat
  oldLines : Nat
  newStart : Nat
  newLines : Nat
  lines : List DiffLine
deriving DecidableEq

/-- The `file` object of a parsed file entry. -/
structure DiffFileInfo where
  path : String
  status : String
  additions : Nat
  deletions : Nat
  oldPath : Option String := none
deriving DecidableEq

/-- One entry of the `files` array built by `getBranchDiff`. -/
structure FileDiff where
  file : DiffFileInfo
  hunks : List DiffHunk
  isBinary : Bool
deriving DecidableEq

/-- The `BranchDiff` result interface. -/
structure BranchDiff where
  branchName : String
  baseBranch : String
  files : List FileDiff
  totalAdditions : Nat
  totalDeletions : Nat
  commitCount : Nat
deriving DecidableEq

/-- JavaScript `str.split(sep)` for a single-character separator. -/
def splitOnChar (sep : Char) : List Char → List (List Char)
  | [] => [[]]
  | c :: cs =>
    let rest := splitOnChar sep cs
    if c == sep then [] :: rest
    else
      match rest with
      | [] => [[c]]
      | r :: rs => (c :: r) :: rs

/-- Splitter for `diffOutput.split(/^diff --git /m)`: cuts the text at every
occurrence of `pat` placed at the start of the string or just after a
newline; the separator text itself is dropped.  `fuel` bounds the recursion
and is instantiated with the text length. -/
def splitML (pat : List Char) : Nat → Bool → List Char → List (List Char)
  | _, _, [] => [[]]
  | 0, _, text => [text]
  | fuel + 1, atStart, c :: cs =>
    if atStart && listIsPrefixOf pat (c :: cs) then
      [] :: splitML pat fuel false (List.drop (pat.length - 1) cs)
    else
      match splitML pat fuel (c == '\n') cs with
      | [] => [[c]]
      | r :: rs => (c :: r) :: rs

/-- The per-file separator of the diff text. -/
def diffGitSeparator : List Char := "diff --git ".data

/-- `diffOutput.split(/^diff --git /m).filter(Boolean)`. -/
def splitDiffParts (text : List Char) : List (List Char) :=
  (splitML diffGitSeparator text.length true text).filter (fun p => !p.isEmpty)

/-- Largest index `k < bound` satisfying `p`, modelling greedy regex
backtracking from the right. -/
def findLastIdx (p : Nat → Bool) : Nat → Option Nat
  | 0 => none
  | n + 1 => if p n then some n else findLastIdx p n

/-- Greedy completion of the header regex `a\/(.+) b\/(.+)` after the
leading `a/`: the first capture takes the longest prefix that still leaves
` b/` followed by at least one character; both captures are nonempty. -/
def lastBSplit (rest : List Char) : Option (List Char × List Char) :=
  match findLastIdx
      (fun k => decide (1 ≤ k) && listIsPrefixOf " b/".data (List.drop k rest) &&
        decide (k + 3 < rest.length)) rest.length with
  | some k => some (rest.take k, rest.drop (k + 3))
  | none => none

/-- Attempt of the header regex at the current position. -/
def matchHeaderAt : List Char → Option (List Char × List Char)
  | 'a' :: '/' :: rest => lastBSplit rest
  | _ => none

/-- `lines[0].match(/a\/(.+) b\/(.+)/)`: leftmost position whose greedy
attempt succeeds; returns the two captures (old path, new path). -/
def matchHeader : List Char → Option (List Char × List Char)
  | [] => none
  | c :: cs =>
    match matchHeaderAt (c :: cs) with
    | some r => some r
    | none => matchHeader cs

/-- Numeric value of a digit string. -/
def digitsVal (ds : List Char) : Nat :=
  ds.foldl (fun n c => n * 10 + (c.toNat - '0'.toNat)) 0

/-- One parsed hunk-header match of
`/@@ -(\d+)(?:,(\d+))? \+(\d+)(?:,(\d+))? @@(.*)/g`: the four numeric
captures (`none` when the optional count group did not participate) and the
full matched text `match[0]`. -/
structure HunkMatch where
  oldStart : Nat
  oldCount : Option Nat
  newStart : Nat
  newCount : Option Nat
  matched : List Char
deriving DecidableEq

/-- Optional `(?:,(\d+))?` group: taken exactly when a comma followed by a
digit is present (the group needs at least one digit; otherwise the regex
falls through to the next literal). -/
def takeCountGroup (cs : List Char) : Option Nat × List Char × List Char :=
  match cs with
  | ',' :: rest =>
    let ds := rest.takeWhile Char.isDigit
    if ds.isEmpty then (none, [], cs)
    else (some (digitsVal ds), ',' :: ds, rest.dropWhile Char.isDigit)
  | _ => (none, [], cs)

/-- Attempt of the hunk-header regex at the current position; on success
returns the match and the characters after `match[0]`. -/
def matchHunkAt (cs : List Char) : Option (HunkMatch × List Char) :=
  if listIsPrefixOf "@@ -".data cs then
    let r1 := List.drop 4 cs
    let d1 := r1.takeWhile Char.isDigit
    if d1.isEmpty then none
    else
      let r2 := r1.dropWhile Char.isDigit
      let (oc, oct, r3) := takeCountGroup r2
      if listIsPrefixOf " +".data r3 then
        let r4 := List.drop 2 r3
        let d3 := r4.takeWhile Char.isDigit
        if d3.isEmpty then none
        else
          let r5 := r4.dropWhile Char.isDigit
          let (nc, nct, r6) := takeCountGroup r5
          if listIsPrefixOf " @@".data r6 then
            let r7 := List.drop 3 r6
            let trailer := r7.takeWhile (fun c => c != '\n')
            some (⟨digitsVal d1, oc, digitsVal d3, nc,
                   "@@ -".data ++ d1 ++ oct ++ " +".data ++ d3 ++ nct ++
                     " @@".data ++ trailer⟩,
                  r7.dropWhile (fun c => c != '\n'))
          else none
      else none
  else none

/-- `part.matchAll(hunkHeaderRegex)`: scan left to right, restarting after
each match; `fuel` is instantiated with the text length. -/
def scanHunkHeaders : Nat → List Char → List HunkMatch
  | 0, _ => []
  | _ + 1, [] => []
  | fuel + 1, c :: cs =>
    match matchHunkAt (c :: cs) with
    | some (h, rest) => h :: scanHunkHeaders fuel rest
    | none => scanHunkHeaders fuel cs

/-- `haystack.indexOf(pat)`: position of the first occurrence. -/
def indexOfSub (pat : List Char) : List Char → Option Nat
  | [] => if pat.isEmpty then some 0 else none
  | c :: cs =>
    if listIsPrefixOf pat (c :: cs) then some 0
    else (indexOfSub pat cs).map (· + 1)

/-- The hunk-body walk of `getBranchDiff`: classify each line by its prefix,
stop at the next hunk or file header, and return the emitted lines together
with the addition and deletion counters incremented alongside each push. -/
def walkHunkLines (lines : List (List Char)) (oldLine newLine : Nat) :
    List DiffLine × Nat × Nat :=
  match lines with
  | [] => ([], 0, 0)
  | line :: rest =>
    if listIsPrefixOf "@@".data line || listIsPrefixOf "diff --git".data line then
      ([], 0, 0)
    else if listIsPrefixOf "+".data line && !listIsPrefixOf "+++".data line then
      let (ls, a, d) := walkHunkLines rest oldLine (newLine + 1)
      (⟨"add", String.mk (line.drop 1), none, some newLine⟩ :: ls, a + 1, d)
    else if listIsPrefixOf "-".data line && !listIsPrefixOf "---".data line then
      let (ls, a, d) := walkHunkLines rest (oldLine + 1) newLine
      (⟨"delete", String.mk (line.drop 1), some oldLine, none⟩ :: ls, a, d + 1)
    else if listIsPrefixOf " ".data line then
      let (ls, a, d) := walkHunkLines rest (oldLine + 1) (newLine + 1)
      (⟨"context", String.mk (line.drop 1), some oldLine, some newLine⟩ :: ls, a, d)
    else
      walkHunkLines rest oldLine newLine

/-- Build the hunks of one file section from its header matches: each hunk's
body starts after the first occurrence of its `match[0]` in the section
(`part.indexOf(match[0])`), omitted counts default to 1, and the file's
addition/deletion counters accumulate across hunks. -/
def buildHunks (part : List Char) : List HunkMatch → List DiffHunk × Nat × Nat
  | [] => ([], 0, 0)
  | h :: hs =>
    let hunkContent :=
      List.drop ((indexOfSub h.matched part).getD 0 + h.matched.length) part
    let (hunkLines, a, d) :=
      walkHunkLines (splitOnChar '\n' hunkContent) h.oldStart h.newStart
    let (restHunks, ra, rd) := buildHunks part hs
    (⟨h.oldStart, h.oldCount.getD 1, h.newStart, h.newCount.getD 1, hunkLines⟩ :: restHunks,
     a + ra, d + rd)

/-- Parse one file section of the diff text: header match (the section is
dropped when it fails), status markers, binary marker (which suppresses hunk
parsing entirely), and hunks. -/
def parseFilePart (part : List Char) : Option FileDiff :=
  let lines := splitOnChar '\n' part
  match matchHeader (lines.headD []) with
  | none => none
  | some (oldPath, newPath) =>
    let status : String :=
      if listContainsSub "new file mode".data part then "added"
      else if listContainsSub "deleted file mode".data part then "deleted"
      else if oldPath ≠ newPath then "renamed"
      else "modified"
    let isBinary := listContainsSub "Binary files".data part
    let (hunks, fileAdditions, fileDeletions) :=
      if isBinary then (([] : List DiffHunk), 0, 0)
      else buildHunks part (scanHunkHeaders part.length part)
    some ⟨⟨String.mk newPath, status, fileAdditions, fileDeletions,
           if status = "renamed" then some (String.mk oldPath) else none⟩,
          hunks, isBinary⟩

/-- Fold over the file sections: skipped sections contribute nothing; the
whole-diff totals accumulate each parsed file's counters. -/
def collectFiles : List (List Char) → List FileDiff × Nat × Nat
  | [] => ([], 0, 0)
  | p :: ps =>
    let (fs, ta, td) := collectFiles ps
    match parseFilePart p with
    | none => (fs, ta, td)
    | some fd => (fd :: fs, fd.file.additions + ta, fd.file.deletions + td)

/-- The parsing stage of `getBranchDiff` applied to the raw diff text. -/
def parseDiffText (diffOutput : List Char) : List FileDiff × Nat × Nat :=
  collectFiles (splitDiffParts diffOutput)

/-- The addition and deletion counters of the hunk walker equal the number of
emitted lines of kind "add" and "delete" respectively. -/
theorem walkHunkLines_counts (lines : List (List Char)) :
    ∀ oldLine newLine,
      (walkHunkLines lines oldLine newLine).2.1 =
        List.countP (fun l => l.type == "add") (walkHunkLines lines oldLine newLine).1 ∧
      (walkHunkLines lines oldLine newLine).2.2 =
        List.countP (fun l => l.type == "delete") (walkHunkLines lines oldLine newLine).1 := by
  induction lines with
  | nil => intro o n; simp [walkHunkLines]
  | cons line rest ih =>
      intro o n
      simp only [walkHunkLines]
      split
      · simp
      · split
        · rcases hw : walkHunkLines rest o (n + 1) with ⟨ls, a, d⟩
          have hih := ih o (n + 1)
          rw [hw] at hih
          simp [hw, List.countP_cons, hih.1, hih.2]
          exact ⟨hih.1, hih.2⟩
        · split
          · rcases hw : walkHunkLines rest (o + 1) n with ⟨ls, a, d⟩
            have hih := ih (o + 1) n
            rw [hw] at hih
            simp [hw, List.countP_cons, hih.1, hih.2]
            exact ⟨hih.1, hih.2⟩
          · split
            · rcases hw : walkHunkLines rest (o + 1) (n + 1) with ⟨ls, a, d⟩
              have hih := ih (o + 1) (n + 1)
              rw [hw] at hih
              simp [hw, List.countP_cons, hih.1, hih.2]
              exact ⟨hih.1, hih.2⟩
            · exact ih o n

/-- The per-file counters accumulated by `buildHunks` equal the sums over its
hunks of the walked line counts. -/
theorem buildHunks_counts (part : List Char) (hs : List HunkMatch) :
    (buildHunks part hs).2.1 =
      ((buildHunks part hs).1.map
        (fun h => List.countP (fun l => l.type == "add") h.lines)).sum ∧
    (buildHunks part hs).2.2 =
      ((buildHunks part hs).1.map
        (fun h => List.countP (fun l => l.type == "delete") h.lines)).sum := by
  induction hs with
  | nil => simp [buildHunks]
  | cons h rest ih =>
      simp only [buildHunks]
      rcases hw : walkHunkLines
          (splitOnChar '\n'
            (List.drop ((indexOfSub h.matched part).getD 0 + h.matched.length) part))
          h.oldStart h.newStart with ⟨ls, a, d⟩
      rcases hb : buildHunks part rest with ⟨hks, ra, rd⟩
      have hwc := walkHunkLines_counts
          (splitOnChar '\n'
            (List.drop ((indexOfSub h.matched part).getD 0 + h.matched.length) part))
          h.oldStart h.newStart
      rw [hw] at hwc
      rw [hb] at ih
      simp at hwc ih
      simp only [hw, hb]
      simp [hwc.1, hwc.2, ih.1, ih.2]

/-- Default FileDiff used only to state closed witnesses. -/
def emptyFileDiff : FileDiff := ⟨⟨"", "", 0, 0, none⟩, [], false⟩

/-- Per-file counters of a parsed section equal the sums over its hunks. -/
theorem parseFilePart_counts (part : List Char) (fd : FileDiff)
    (hp : parseFilePart part = some fd) :
    fd.file.additions =
      (fd.hunks.map (fun h => List.countP (fun l => l.type == "add") h.lines)).sum ∧
    fd.file.deletions =
      (fd.hunks.map (fun h => List.countP (fun l => l.type == "delete") h.lines)).sum := by
  simp only [parseFilePart] at hp
  split at hp
  · cases hp
  · rename_i oldPath newPath heq
    injection hp with h
    subst h
    by_cases hbin : listContainsSub "Binary files".data part = true
    · simp [hbin]
    · have hbc := buildHunks_counts part (scanHunkHeaders part.length part)
      simp [hbin, hbc.1, hbc.2]

/-- Counter bookkeeping of the fold over file sections. -/
theorem collectFiles_counts (ps : List (List Char)) :
    (collectFiles ps).2.1 =
      ((collectFiles ps).1.map (fun fd => fd.file.additions)).sum ∧
    (collectFiles ps).2.2 =
      ((collectFiles ps).1.map (fun fd => fd.file.deletions)).sum := by
  induction ps with
  | nil => simp [collectFiles]
  | cons p rest ih =>
      simp only [collectFiles]
      rcases hc : collectFiles rest with ⟨fs, ta, td⟩
      rw [hc] at ih
      simp at ih
      cases hp : parseFilePart p with
      | none => simpa using ih
      | some fd => simp [ih.1, ih.2]

/-- Every parsed file of the fold satisfies the per-file count equations. -/
theorem collectFiles_mem_counts (ps : List (List Char)) :
    ∀ fd ∈ (collectFiles ps).1,
      fd.file.additions =
        (fd.hunks.map (fun h => List.countP (fun l => l.type == "add") h.lines)).sum ∧
      fd.file.deletions =
        (fd.hunks.map (fun h => List.countP (fun l => l.type == "delete") h.lines)).sum := by
  induction ps with
  | nil => intro fd h; simp [collectFiles] at h
  | cons p rest ih =>
      intro fd hmem
      simp only [collectFiles] at hmem
      rcases hc : collectFiles rest with ⟨fs, ta, td⟩
      rw [hc] at hmem ih
      cases hp : parseFilePart p with
      | none => rw [hp] at hmem; exact ih fd hmem
      | some fd2 =>
          rw [hp] at hmem
          simp only [List.mem_cons] at hmem
          cases hmem with
          | inl heq => subst heq; exact parseFilePart_counts p fd hp
          | inr hmem => exact ih fd hmem

/-- C6: for every diff text, each parsed file's reported additions and
deletions equal the number of "add" and "delete" lines emitted across that
file's hunks by walking the hunk bodies, and the whole-diff totals are the
sums of the per-file counters — the `--stat` summary text contributes
nothing (a section without a matching per-file header is skipped). -/
theorem diff_counts_from_walked_lines (diffOutput : List Char) :
    (∀ fd ∈ (parseDiffText diffOutput).1,
        fd.file.additions =
          (fd.hunks.map (fun h => List.countP (fun l => l.type == "add") h.lines)).sum ∧
        fd.file.deletions =
          (fd.hunks.map (fun h => List.countP (fun l => l.type == "delete") h.lines)).sum) ∧
    (parseDiffText diffOutput).2.1 =
      ((parseDiffText diffOutput).1.map (fun fd => fd.file.additions)).sum ∧
    (parseDiffText diffOutput).2.2 =
      ((parseDiffText diffOutput).1.map (fun fd => fd.file.deletions)).sum :=
  ⟨collectFiles_mem_counts (splitDiffParts diffOutput),
   (collectFiles_counts (splitDiffParts diffOutput)).1,
   (collectFiles_counts (splitDiffParts diffOutput)).2⟩

/-- Concrete diff text exercising C6: a stat preamble, a text file with two
hunks, and a second file. -/
def exC6 : String :=
" f.txt | 3 ++-\ndiff --git a/f.txt b/f.txt\n--- a/f.txt\n+++ b/f.txt\n@@ -1,2 +1,3 @@\n ctx\n+one\n-two\n+three\n@@ -9 +10 @@\n-x\n+y\ndiff --git a/g.txt b/g.txt\n--- a/g.txt\n+++ b/g.txt\n@@ -1 +1 @@\n-a\n+b\n"

set_option maxRecDepth 40000 in
/-- C6 witness: the theorem applied to `exC6`, with the per-file part
instantiated at the first parsed file. -/
theorem diff_counts_from_walked_lines_check :
    ((parseDiffText exC6.data).2.1 =
      ((parseDiffText exC6.data).1.map (fun fd => fd.file.additions)).sum) ∧
    (((parseDiffText exC6.data).1.headD emptyFileDiff).file.additions =
      (((parseDiffText exC6.data).1.headD emptyFileDiff).hunks.map
        (fun h => List.countP (fun l => l.type == "add") h.lines)).sum) :=
  ⟨(diff_counts_from_walked_lines exC6.data).2.1,
   ((diff_counts_from_walked_lines exC6.data).1
      ((parseDiffText exC6.data).1.headD emptyFileDiff) (by decide)).1⟩

/-- C7: any file section containing the `Binary files` marker parses to a
FileDiff with `isBinary = true` and no hunks, regardless of hunk-shaped text
in the section (hunk parsing is skipped entirely). -/
theorem binary_marker_forces_empty_hunks (part : List Char) (fd : FileDiff)
    (hp : parseFilePart part = some fd)
    (hbin : listContainsSub "Binary files".data part = true) :
    fd.isBinary = true ∧ fd.hunks = [] ∧
    fd.file.additions = 0 ∧ fd.file.deletions = 0 := by
  simp only [parseFilePart] at hp
  split at hp
  · cases hp
  · rename_i oldPath newPath heq
    injection hp with h
    subst h
    simp [hbin]

/-- A binary file section that also contains hunk-shaped text. -/
def partC7 : String :=
"a/x.bin b/x.bin\nBinary files a/x.bin and b/x.bin differ\n@@ -1 +1 @@\n+sneaky\n"

/-- The FileDiff produced for `partC7`. -/
def fdC7 : FileDiff := ⟨⟨"x.bin", "modified", 0, 0, none⟩, [], true⟩

set_option maxRecDepth 40000 in
/-- C7 witness: the theorem applied to the binary-plus-hunk-text section. -/
theorem binary_marker_forces_empty_hunks_check :
    fdC7.isBinary = true ∧ fdC7.hunks = [] ∧
    fdC7.file.additions = 0 ∧ fdC7.file.deletions = 0 :=
  binary_marker_forces_empty_hunks partC7.data fdC7 (by decide) (by decide)

/-- C8: a hunk header whose optional count groups did not participate in the
match builds a hunk with `oldLines = 1` and `newLines = 1`; and concretely the
header text `@@ -5 +5 @@` parses successfully (no error) with both counts
omitted. -/
theorem omitted_hunk_counts_default_to_one :
    (∀ (cs rest : List Char) (h : HunkMatch),
        matchHunkAt cs = some (h, rest) →
        h.oldCount = none → h.newCount = none →
        ∀ (part : List Char) (hs : List HunkMatch),
          ((buildHunks part (h :: hs)).1.head?).map
              (fun k => (k.oldLines, k.newLines)) = some (1, 1)) ∧
    matchHunkAt "@@ -5 +5 @@".data =
      some (⟨5, none, 5, none, "@@ -5 +5 @@".data⟩, []) := by
  constructor
  · intro cs rest h hm ho hn part hs
    simp only [buildHunks]
    rcases hw : walkHunkLines
        (splitOnChar '\n'
          (List.drop ((indexOfSub h.matched part).getD 0 + h.matched.length) part))
        h.oldStart h.newStart with ⟨ls, a, d⟩
    rcases hb : buildHunks part hs with ⟨hks, ra, rd⟩
    simp [hw, hb, ho, hn]
  · decide

/-- C8 witness: the general part applied to the concrete header. -/
theorem omitted_hunk_counts_default_to_one_check :
    ((buildHunks "@@ -5 +5 @@".data
        [⟨5, none, 5, none, "@@ -5 +5 @@".data⟩]).1.head?).map
      (fun k => (k.oldLines, k.newLines)) = some (1, 1) :=
  omitted_hunk_counts_default_to_one.1 "@@ -5 +5 @@".data []
    ⟨5, none, 5, none, "@@ -5 +5 @@".data⟩
    omitted_hunk_counts_default_to_one.2 rfl rfl "@@ -5 +5 @@".data []

/-- Diff text with a malformed first file-section header followed by a
well-formed section. -/
def exC9 : String :=
"diff --git garbled header\n@@ -1 +1 @@\n+x\ndiff --git a/ok.txt b/ok.txt\n@@ -1 +1,2 @@\n context\n+added\n"

set_option maxRecDepth 40000 in
/-- C9 counterexample: of the two file sections of `exC9`, the one with the
malformed per-file header does not appear in the result at all (it is not
degraded to a FileDiff with an empty hunk list): only one FileDiff is
produced and it has nonempty hunks. -/
theorem malformed_header_counterexample :
    (splitDiffParts exC9.data).length = 2 ∧
    (parseDiffText exC9.data).1.length = 1 ∧
    (parseDiffText exC9.data).1.all (fun fd => !fd.hunks.isEmpty) = true := by
  decide

/-- C9 amended: a file section whose per-file header fails the header match
is skipped entirely — the fold over sections with it removed is unchanged —
so every other well-formed section still appears with its hunks intact. -/
theorem malformed_header_section_skipped (parts1 parts2 : List (List Char))
    (bad : List Char)
    (hbad : matchHeader ((splitOnChar '\n' bad).headD []) = none) :
    collectFiles (parts1 ++ bad :: parts2) = collectFiles (parts1 ++ parts2) := by
  induction parts1 with
  | nil =>
      simp only [List.nil_append, collectFiles]
      have hskip : parseFilePart bad = none := by
        simp only [parseFilePart]
        split
        · rfl
        · rename_i op np heq
          rw [hbad] at heq
          cases heq
      rw [hskip]
  | cons p ps ih =>
      simp only [List.cons_append, collectFiles]
      have ih2 : collectFiles (ps.append (bad :: parts2)) = collectFiles (ps.append parts2) := ih
      rw [ih2]

set_option maxRecDepth 40000 in
/-- C9 witness: the amended theorem applied to the sections of `exC9`. -/
theorem malformed_header_section_skipped_check :
    collectFiles ("garbled header\n@@ -1 +1 @@\n+x\n".data ::
        ["a/ok.txt b/ok.txt\n@@ -1 +1,2 @@\n context\n+added\n".data]) =
      collectFiles ["a/ok.txt b/ok.txt\n@@ -1 +1,2 @@\n context\n+added\n".data] :=
  malformed_header_section_skipped []
    ["a/ok.txt b/ok.txt\n@@ -1 +1,2 @@\n context\n+added\n".data]
    "garbled header\n@@ -1 +1 @@\n+x\n".data (by decide)

/-- Outcomes of the git commands that one invocation of `getBranchDiff` may
issue. -/
structure BranchDiffEnv where
  revParseOriginMaster : GitOutcome String
  revParseOriginMain : GitOutcome String
  branchLocalAll : GitOutcome (List String)
  revListCount : GitOutcome String
  diffRaw : GitOutcome String
deriving DecidableEq

/-- The base-branch probe of `getBranchDiff` (plugin-handler.ts lines
903-922): `origin/master`, then `origin/main`, then the local branch list
checked for `main` then `master`; `ok none` is the explicit no-base return,
`err` a thrown command whose exception reaches the outer catch. -/
def baseBranchProbe (env : BranchDiffEnv) : GitOutcome (Option String) :=
  match env.revParseOriginMaster with
  | .ok _ => .ok (some "origin/master")
  | .err _ =>
    match env.revParseOriginMain with
    | .ok _ => .ok (some "origin/main")
    | .err _ =>
      match env.branchLocalAll with
      | .err e => .err e
      | .ok all =>
        if all.contains "main" then .ok (some "main")
        else if all.contains "master" then .ok (some "master")
        else .ok none

/-- JavaScript `String.prototype.trim`. -/
def trimChars (cs : List Char) : List Char :=
  ((cs.dropWhile Char.isWhitespace).reverse.dropWhile Char.isWhitespace).reverse

/-- `parseInt(countOutput.trim()) || 0` on git rev-list output: value of the
leading digit run of the trimmed string, 0 when there is none. -/
def jsParseIntOr0 (s : String) : Nat :=
  digitsVal ((trimChars s.data).takeWhile Char.isDigit)

/-- `baseBranch.replace('origin/', '')`: removes the first occurrence. -/
def replaceOriginOnce (s : String) : String :=
  match indexOfSub "origin/".data s.data with
  | none => s
  | some i => String.mk (s.data.take i ++ s.data.drop (i + 7))

/-- Translation of `getBranchDiff` (plugin-handler.ts lines 899-1057) for a
selected repository: base-branch probe, commit count (errors ignored), diff
text fetch, empty-diff early return, and the parsing fold; any command
exception not locally handled reaches the outer catch, which returns null. -/
def getBranchDiff (env : BranchDiffEnv) (branchName : String) :
    Option BranchDiff :=
  match baseBranchProbe env with
  | .err _ => none
  | .ok none => none
  | .ok (some baseBranch) =>
    let commitCount :=
      match env.revListCount with
      | .ok countOutput => jsParseIntOr0 countOutput
      | .err _ => 0
    match env.diffRaw with
    | .err _ => none
    | .ok diffOutput =>
      if (trimChars diffOutput.data).isEmpty then
        some ⟨branchName, replaceOriginOnce baseBranch, [], 0, 0, commitCount⟩
      else
        let (files, totalAdditions, totalDeletions) := parseDiffText diffOutput.data
        some ⟨branchName, replaceOriginOnce baseBranch, files,
              totalAdditions, totalDeletions, commitCount⟩

/-- C10: `getBranchDiff` is a total function of the command outcomes (it
never throws): it returns `none` when no base-branch candidate exists, when
the local-branch listing itself raises, or when the diff command raises; the
probe prefers `origin/master`, then `origin/main`, then local `main`, then
local `master`; and any `some` result carries the first existing candidate
with its `origin/` prefix stripped as `baseBranch`, and the requested branch
name. -/
theorem getBranchDiff_null_and_base_branch :
    (∀ (env : BranchDiffEnv) (b e1 e2 : String) (l : List String),
        env.revParseOriginMaster = GitOutcome.err e1 →
        env.revParseOriginMain = GitOutcome.err e2 →
        env.branchLocalAll = GitOutcome.ok l →
        l.contains "main" = false → l.contains "master" = false →
        getBranchDiff env b = none) ∧
    (∀ (env : BranchDiffEnv) (b e1 e2 e3 : String),
        env.revParseOriginMaster = GitOutcome.err e1 →
        env.revParseOriginMain = GitOutcome.err e2 →
        env.branchLocalAll = GitOutcome.err e3 →
        getBranchDiff env b = none) ∧
    (∀ (env : BranchDiffEnv) (b e : String),
        env.diffRaw = GitOutcome.err e → getBranchDiff env b = none) ∧
    (∀ (env : BranchDiffEnv) (s : String),
        env.revParseOriginMaster = GitOutcome.ok s →
        baseBranchProbe env = GitOutcome.ok (some "origin/master")) ∧
    (∀ (env : BranchDiffEnv) (s e1 : String),
        env.revParseOriginMaster = GitOutcome.err e1 →
        env.revParseOriginMain = GitOutcome.ok s →
        baseBranchProbe env = GitOutcome.ok (some "origin/main")) ∧
    (∀ (env : BranchDiffEnv) (e1 e2 : String) (l : List String),
        env.revParseOriginMaster = GitOutcome.err e1 →
        env.revParseOriginMain = GitOutcome.err e2 →
        env.branchLocalAll = GitOutcome.ok l →
        l.contains "main" = true →
        baseBranchProbe env = GitOutcome.ok (some "main")) ∧
    (∀ (env : BranchDiffEnv) (e1 e2 : String) (l : List String),
        env.revParseOriginMaster = GitOutcome.err e1 →
        env.revParseOriginMain = GitOutcome.err e2 →
        env.branchLocalAll = GitOutcome.ok l →
        l.contains "main" = false → l.contains "master" = true →
        baseBranchProbe env = GitOutcome.ok (some "master")) ∧
    (∀ (env : BranchDiffEnv) (b : String) (bd : BranchDiff),
        getBranchDiff env b = some bd →
        ∃ base, baseBranchProbe env = GitOutcome.ok (some base) ∧
          bd.baseBranch = replaceOriginOnce base ∧ bd.branchName = b) := by
  refine ⟨?_, ?_, ?_, ?_, ?_, ?_, ?_, ?_⟩
  · intro env b e1 e2 l h1 h2 h3 h4 h5
    simp only [getBranchDiff, baseBranchProbe, h1, h2, h3, h4, h5]
    simp
  · intro env b e1 e2 e3 h1 h2 h3
    simp [getBranchDiff, baseBranchProbe, h1, h2, h3]
  · intro env b e hd
    unfold getBranchDiff
    cases hp : baseBranchProbe env with
    | err e2 => rfl
    | ok o =>
        cases o with
        | none => rfl
        | some base => simp [hd]
  · intro env s h1
    simp [baseBranchProbe, h1]
  · intro env s e1 h1 h2
    simp [baseBranchProbe, h1, h2]
  · intro env e1 e2 l h1 h2 h3 h4
    simp only [baseBranchProbe, h1, h2, h3, h4]
    simp
  · intro env e1 e2 l h1 h2 h3 h4 h5
    simp only [baseBranchProbe, h1, h2, h3, h4, h5]
    simp
  · intro env b bd h
    simp only [getBranchDiff] at h
    split at h
    · cases h
    · cases h
    · rename_i base heq
      refine ⟨base, heq, ?_⟩
      split at h
      · cases h
      · split at h
        · injection h with h2
          subst h2
          exact ⟨rfl, rfl⟩
        · injection h with h2
          subst h2
          exact ⟨rfl, rfl⟩

/-- C10 witness: concrete instances — no candidate at all, a thrown diff
command, and a successful parse whose baseBranch is the stripped first
candidate. -/
theorem getBranchDiff_null_and_base_branch_check :
    getBranchDiff ⟨GitOutcome.err "no ref", GitOutcome.err "no ref",
        GitOutcome.ok ["feature"], GitOutcome.ok "1",
        GitOutcome.ok ""⟩ "feature" = none ∧
    getBranchDiff ⟨GitOutcome.ok "abc123", GitOutcome.err "no ref",
        GitOutcome.ok [], GitOutcome.ok "1",
        GitOutcome.err "network down"⟩ "feature" = none ∧
    baseBranchProbe ⟨GitOutcome.ok "abc123", GitOutcome.err "no ref",
        GitOutcome.ok [], GitOutcome.ok "1", GitOutcome.ok ""⟩ =
      GitOutcome.ok (some "origin/master") := by
  refine ⟨?_, ?_, ?_⟩
  · exact getBranchDiff_null_and_base_branch.1 _ "feature" "no ref" "no ref"
      ["feature"] rfl rfl rfl (by decide) (by decide)
  · exact getBranchDiff_null_and_base_branch.2.2.1 _ "feature" "network down" rfl
  · exact getBranchDiff_null_and_base_branch.2.2.2.1 _ "abc123" rfl

/-- C3 amended witness: the amended theorem applied to an invocation whose
pull and restore both succeed. -/
theorem pull_autostash_amended_check :
    (pullCurrentBranch
        ⟨GitOutcome.ok "dev", GitOutcome.ok (),
         GitOutcome.ok ⟨2, ["m.txt"], [], [], [], []⟩, GitOutcome.ok (),
         GitOutcome.ok (), GitOutcome.ok (), GitOutcome.ok ()⟩).1.autoStashed =
        some true ∨
    (pullCurrentBranch
        ⟨GitOutcome.ok "dev", GitOutcome.ok (),
         GitOutcome.ok ⟨2, ["m.txt"], [], [], [], []⟩, GitOutcome.ok (),
         GitOutcome.ok (), GitOutcome.ok (), GitOutcome.ok ()⟩).1.message =
        noTrackingMsg :=
  (pull_autostash_amended _ "dev" ⟨2, ["m.txt"], [], [], [], []⟩ rfl (by decide)
      rfl rfl (by decide) (by decide) rfl).2 (by decide)
